import Mathlib

/-!
Shallow embedding of the HDRView image-processing core (src/hdrimage.cpp and
src/glimage.cpp) and proofs about it.

Modelling conventions:
* C++ `int` is modelled as `Int`; `float` values and arithmetic are modelled
  exactly over `ℚ` (the claims under study are about exact arithmetic
  identities, stated in the spec "within floating-point tolerance").
* A raster (`HDRImage`) is a width, a height, and a total pixel function;
  an access to the underlying buffer outside `[0,width) × [0,height)` is
  undefined behaviour in the C++ code, which the checked accessor
  `HDRImage.pixelChecked` models by returning `none`.
* Helpers `clamp`, `mod` and `lerp` live in `common.h`, which is not part of
  the two source files; they are modelled from the spec (see their comments).
-/

/-- Four-channel floating-point pixel (class `Color4`), channels r, g, b, a. -/
structure Color4 where
  r : ℚ
  g : ℚ
  b : ℚ
  a : ℚ
deriving DecidableEq, Repr

namespace Color4

@[ext] theorem ext_c4 {c d : Color4} (hr : c.r = d.r) (hg : c.g = d.g)
    (hb : c.b = d.b) (ha : c.a = d.a) : c = d := by
  cases c; cases d; simp_all

/-- Elementwise addition of pixels. -/
def add (c d : Color4) : Color4 := ⟨c.r + d.r, c.g + d.g, c.b + d.b, c.a + d.a⟩

/-- Elementwise subtraction of pixels. -/
def sub (c d : Color4) : Color4 := ⟨c.r - d.r, c.g - d.g, c.b - d.b, c.a - d.a⟩

/-- Elementwise negation. -/
def neg (c : Color4) : Color4 := ⟨-c.r, -c.g, -c.b, -c.a⟩

/-- Multiplication of a pixel by a scalar (Color4 `operator*` with a float). -/
def scale (c : Color4) (s : ℚ) : Color4 := ⟨c.r * s, c.g * s, c.b * s, c.a * s⟩

instance : Zero Color4 := ⟨⟨0, 0, 0, 0⟩⟩
instance : Add Color4 := ⟨add⟩
instance : Neg Color4 := ⟨neg⟩
instance : Sub Color4 := ⟨sub⟩

@[simp] theorem zero_def : (0 : Color4) = ⟨0, 0, 0, 0⟩ := rfl
@[simp] theorem add_def (c d : Color4) :
    c + d = ⟨c.r + d.r, c.g + d.g, c.b + d.b, c.a + d.a⟩ := rfl
@[simp] theorem sub_def (c d : Color4) :
    c - d = ⟨c.r - d.r, c.g - d.g, c.b - d.b, c.a - d.a⟩ := rfl
@[simp] theorem neg_def (c : Color4) : -c = ⟨-c.r, -c.g, -c.b, -c.a⟩ := rfl
@[simp] theorem scale_def (c : Color4) (s : ℚ) :
    c.scale s = ⟨c.r * s, c.g * s, c.b * s, c.a * s⟩ := rfl

instance : AddCommGroup Color4 where
  add_assoc c d e := by ext <;> simp <;> ring
  zero_add c := by ext <;> simp
  add_zero c := by ext <;> simp
  add_comm c d := by ext <;> simp <;> ring
  neg_add_cancel c := by ext <;> simp
  sub_eq_add_neg c d := by ext <;> simp <;> ring
  nsmul := nsmulRec
  zsmul := zsmulRec

@[simp] theorem scale_zero (c : Color4) : c.scale 0 = 0 := by ext <;> simp
@[simp] theorem scale_one (c : Color4) : c.scale 1 = c := by ext <;> simp
@[simp] theorem zero_scale (s : ℚ) : (0 : Color4).scale s = 0 := by ext <;> simp

/-- Channel read, `Color4::operator[]` (0 = r, 1 = g, 2 = b, 3 = a). -/
def getCh (c : Color4) : Fin 4 → ℚ
  | 0 => c.r
  | 1 => c.g
  | 2 => c.b
  | 3 => c.a

/-- Channel write through `Color4::operator[]`. -/
def setCh (c : Color4) : Fin 4 → ℚ → Color4
  | 0, v => ⟨v, c.g, c.b, c.a⟩
  | 1, v => ⟨c.r, v, c.b, c.a⟩
  | 2, v => ⟨c.r, c.g, v, c.a⟩
  | 3, v => ⟨c.r, c.g, c.b, v⟩

end Color4

/-- A pixel with all four channels equal, used for concrete test rasters. -/
def c4 (v : ℚ) : Color4 := ⟨v, v, v, v⟩

/-- The constant `g_blackPixel = Color4(0,0,0,0)` of hdrimage.cpp. -/
def g_blackPixel : Color4 := ⟨0, 0, 0, 0⟩

/-- Border modes of `HDRImage` (enum BorderMode). -/
inductive BorderMode where
  | BLACK
  | EDGE
  | REPEAT
  | MIRROR
deriving DecidableEq, Repr

/-- Modelled from the spec: `clamp` from the missing header common.h;
"EDGE clamps to [0,dim-1]" — the mathematical clamp of a value to an
interval, `max lo (min a hi)`. -/
def clampI (a lo hi : Int) : Int := max lo (min a hi)

/-- Modelled from the spec: `mod` from the missing header common.h;
"REPEAT wraps modulo dim", i.e. the mathematically nonnegative remainder
(for a positive modulus), which is Lean's `Int.emod`. -/
def modI (a n : Int) : Int := a % n

/-- The dense raster type (`HDRImage`): a width, a height and the pixel
buffer, modelled as a total function (reads outside the bounds are
undefined behaviour in C++ and are only ever observed through
`pixelChecked`, which guards them). -/
structure HDRImage where
  width : Int
  height : Int
  data : Int → Int → Color4

namespace HDRImage

/-- Bounds-checked buffer access: `some` of the stored pixel inside the
raster, `none` for the out-of-bounds buffer access that is undefined
behaviour in the C++ code. -/
def ref (img : HDRImage) (x y : Int) : Option Color4 :=
  if 0 ≤ x ∧ x < img.width ∧ 0 ≤ y ∧ y < img.height then
    some (img.data x y)
  else
    none

end HDRImage

/-- Border-aware coordinate resolution (`wrapCoord` of hdrimage.cpp):
in-range coordinates are returned unchanged; otherwise EDGE clamps,
REPEAT wraps, MIRROR reflects using the parity of `abs(p) / maxP`
(C++ truncating division of the absolute value), and BLACK returns the
sentinel -1. -/
def wrapCoord (p maxP : Int) (m : BorderMode) : Int :=
  if 0 ≤ p ∧ p < maxP then p
  else
    match m with
    | .EDGE => clampI p 0 (maxP - 1)
    | .REPEAT => modI p maxP
    | .MIRROR =>
        let frac := modI p maxP
        if ((p.natAbs : Int) / maxP) % 2 ≠ 0 then maxP - 1 - frac else frac
    | .BLACK => -1

namespace HDRImage

/-- The const accessor `HDRImage::pixel(x, y, mX, mY)` with the underlying
buffer read bounds-checked: `none` models the C++ undefined behaviour of
reading outside the buffer (possible only when a dimension is not
positive). -/
def pixelChecked (img : HDRImage) (x y : Int) (mX mY : BorderMode) :
    Option Color4 :=
  if wrapCoord x img.width mX < 0 ∨ wrapCoord y img.height mY < 0 then
    some g_blackPixel
  else img.ref (wrapCoord x img.width mX) (wrapCoord y img.height mY)

/-- The const accessor `HDRImage::pixel(x, y, mX, mY)` with the buffer read
taken to succeed; it agrees with `pixelChecked` whenever both dimensions are
positive (lemma `pixelChecked_eq_pixel`), which is the situation in every
internal use by the filters. -/
def pixel (img : HDRImage) (x y : Int) (mX mY : BorderMode) : Color4 :=
  if wrapCoord x img.width mX < 0 ∨ wrapCoord y img.height mY < 0 then
    g_blackPixel
  else img.data (wrapCoord x img.width mX) (wrapCoord y img.height mY)

/-- The non-const accessor `HDRImage::pixel` used for writes: writing through
it stores the value at the resolved coordinate; when resolution yields the
BLACK sentinel it throws (`none`). -/
def setPixel (img : HDRImage) (x y : Int) (mX mY : BorderMode)
    (v : Color4) : Option HDRImage :=
  if wrapCoord x img.width mX < 0 ∨ wrapCoord y img.height mY < 0 then none
  else some ⟨img.width, img.height,
    fun u w =>
      if u = wrapCoord x img.width mX ∧ w = wrapCoord y img.height mY then v
      else img.data u w⟩

end HDRImage

/-- Coordinate resolution lands inside `[0, maxP)` for the three non-BLACK
modes whenever the dimension is positive. -/
theorem wrapCoord_mem (p maxP : Int) (m : BorderMode)
    (hdim : 0 < maxP) (hm : m ≠ .BLACK) :
    0 ≤ wrapCoord p maxP m ∧ wrapCoord p maxP m < maxP := by
  unfold wrapCoord
  by_cases h : 0 ≤ p ∧ p < maxP
  · simp [h]
  · have hne : maxP ≠ 0 := by omega
    have hmod : 0 ≤ p % maxP ∧ p % maxP < maxP :=
      ⟨Int.emod_nonneg p hne, Int.emod_lt_of_pos p hdim⟩
    cases m with
    | BLACK => exact absurd rfl hm
    | EDGE => simp only [if_neg h, clampI]; omega
    | REPEAT => simp only [if_neg h, modI]; exact hmod
    | MIRROR =>
        simp only [if_neg h, modI]
        by_cases hpar : ((p.natAbs : Int) / maxP) % 2 ≠ 0 <;>
          simp [hpar] <;> omega

/-- The checked and the total read agree on rasters with positive
dimensions. -/
theorem pixelChecked_eq_pixel (img : HDRImage) (x y : Int)
    (mX mY : BorderMode) (hw : 0 < img.width) (hh : 0 < img.height) :
    img.pixelChecked x y mX mY = some (img.pixel x y mX mY) := by
  unfold HDRImage.pixelChecked HDRImage.pixel HDRImage.ref
  by_cases hneg : wrapCoord x img.width mX < 0 ∨ wrapCoord y img.height mY < 0
  · rw [if_pos hneg, if_pos hneg]
  · push_neg at hneg
    have hx : wrapCoord x img.width mX < img.width := by
      by_cases hmX : mX = .BLACK
      · subst hmX
        unfold wrapCoord
        by_cases h : 0 ≤ x ∧ x < img.width
        · simp only [if_pos h]; exact h.2
        · exfalso
          simp only [wrapCoord, if_neg h] at hneg
          omega
      · exact (wrapCoord_mem x img.width mX hw hmX).2
    have hy : wrapCoord y img.height mY < img.height := by
      by_cases hmY : mY = .BLACK
      · subst hmY
        unfold wrapCoord
        by_cases h : 0 ≤ y ∧ y < img.height
        · simp only [if_pos h]; exact h.2
        · exfalso
          simp only [wrapCoord, if_neg h] at hneg
          omega
      · exact (wrapCoord_mem y img.height mY hh hmY).2
    have hcond : ¬ (wrapCoord x img.width mX < 0 ∨
        wrapCoord y img.height mY < 0) := by omega
    rw [if_neg hcond, if_neg hcond, if_pos ⟨hneg.1, hx, hneg.2, hy⟩]

/-- The MIRROR resolution rule exactly as claim C1 words it: reflected
offset when the floor quotient ⌊p/dim⌋ is odd, direct offset when it is
even (Lean's `/` on `Int` is floor division for a positive divisor). -/
def mirrorClaimFormula (p dim : Int) : Int :=
  if (p / dim) % 2 = 1 then dim - 1 - p % dim else p % dim

/-- C1 as stated is false on the code: at p = -1, dim = 3 the code's MIRROR
resolution (parity of abs(p)/dim, truncating) returns the direct offset 2,
while the claim's formula (parity of ⌊p/dim⌋ = -1, odd) demands the
reflected offset 0. -/
theorem C1_counterexample :
    wrapCoord (-1) 3 .MIRROR = 2 ∧ mirrorClaimFormula (-1) 3 = 0 ∧
      wrapCoord (-1) 3 .MIRROR ≠ mirrorClaimFormula (-1) 3 := by
  decide

/-- C1 (amended): for dim > 0, EDGE clamps to [0, dim-1], REPEAT wraps
modulo dim, MIRROR selects the reflected offset dim-1-(p mod dim) when
⌊|p|/dim⌋ (truncating division of the absolute value, as the code computes
it — this coincides with ⌊p/dim⌋ for p ≥ 0 but not in general) is odd and
the direct offset p mod dim when it is even, and an in-range p is returned
unchanged under every mode. -/
theorem C1_wrapCoord_amended (p dim : Int) (hdim : 0 < dim) :
    wrapCoord p dim .EDGE = max 0 (min p (dim - 1)) ∧
    wrapCoord p dim .REPEAT = p % dim ∧
    wrapCoord p dim .MIRROR =
      (if ((p.natAbs : Int) / dim) % 2 = 1 then dim - 1 - p % dim
       else p % dim) ∧
    (∀ m : BorderMode, 0 ≤ p → p < dim → wrapCoord p dim m = p) := by
  refine ⟨?_, ?_, ?_, ?_⟩
  · unfold wrapCoord clampI
    by_cases h : 0 ≤ p ∧ p < dim
    · simp [h]; omega
    · simp [h]
  · unfold wrapCoord modI
    by_cases h : 0 ≤ p ∧ p < dim
    · simp [h]
      exact (Int.emod_eq_of_lt h.1 h.2).symm
    · simp [h]
  · unfold wrapCoord modI
    have hpar : ((p.natAbs : Int) / dim) % 2 = 1 ∨
        ((p.natAbs : Int) / dim) % 2 = 0 := by omega
    by_cases h : 0 ≤ p ∧ p < dim
    · have habs : (p.natAbs : Int) = p := Int.natAbs_of_nonneg h.1
      have hq : (p.natAbs : Int) / dim = 0 := by
        rw [habs]; exact Int.ediv_eq_zero_of_lt h.1 h.2
      rw [if_pos h, hq]
      simp [(Int.emod_eq_of_lt h.1 h.2)]
    · rcases hpar with hpar | hpar <;> simp [h, hpar]
  · intro m h1 h2
    unfold wrapCoord
    simp [h1, h2]

/-- Witness for C1_wrapCoord_amended at p = 7, dim = 3. -/
theorem C1_wrapCoord_amended_witness :
    wrapCoord 7 3 .EDGE = max 0 (min 7 (3 - 1)) ∧
    wrapCoord 7 3 .REPEAT = 7 % 3 ∧
    wrapCoord 7 3 .MIRROR =
      (if (((7 : Int).natAbs : Int) / 3) % 2 = 1 then 3 - 1 - 7 % 3
       else 7 % 3) ∧
    (∀ m : BorderMode, 0 ≤ (7 : Int) → (7 : Int) < 3 →
      wrapCoord 7 3 m = 7) :=
  C1_wrapCoord_amended 7 3 (by decide)

/-- The empty raster, for the C2 counterexample. -/
def imgEmpty : HDRImage := ⟨0, 0, fun _ _ => g_blackPixel⟩

/-- C2 as stated is false on the code for zero-sized rasters: on a 0×0
raster with REPEAT mode the coordinate wrap performs a modulo by zero
(undefined behaviour in C++; in the model the unreduced coordinate reaches
the buffer and the bounds-checked read yields `none`). -/
theorem C2_counterexample :
    imgEmpty.pixelChecked 5 5 .REPEAT .REPEAT = none := by
  decide

/-- C2 (amended): on every raster with positive width and height, for the
modes EDGE, REPEAT and MIRROR, the read `pixel(x, y, m, m)` is defined for
every integer pair (x, y): the resolved coordinates are always in range,
so the access never faults. -/
theorem C2_pixel_total (img : HDRImage) (x y : Int) (m : BorderMode)
    (hw : 0 < img.width) (hh : 0 < img.height) (hm : m ≠ .BLACK) :
    (img.pixelChecked x y m m).isSome := by
  rw [pixelChecked_eq_pixel img x y m m hw hh]
  rfl

/-- A concrete 1×1 raster. -/
def img1 : HDRImage := ⟨1, 1, fun _ _ => c4 7⟩

/-- Witness for C2_pixel_total on a 1×1 raster at (-7, 9) under MIRROR. -/
theorem C2_pixel_total_witness :
    (img1.pixelChecked (-7) 9 .MIRROR .MIRROR).isSome :=
  C2_pixel_total img1 (-7) 9 .MIRROR (by decide) (by decide) (by decide)

/-- C3 (confirmed): under BLACK border mode, an out-of-range read returns
the fixed transparent-black pixel and an out-of-range write signals an
error (`none`, the thrown out_of_range exception) rather than writing;
for in-range coordinates the read returns the stored pixel and the write
stores exactly at that coordinate, leaving every other pixel unchanged. -/
theorem C3_black_mode (img : HDRImage) (x y : Int) (v : Color4) :
    (¬ (0 ≤ x ∧ x < img.width ∧ 0 ≤ y ∧ y < img.height) →
      img.pixelChecked x y .BLACK .BLACK = some g_blackPixel ∧
      img.setPixel x y .BLACK .BLACK v = none) ∧
    ((0 ≤ x ∧ x < img.width ∧ 0 ≤ y ∧ y < img.height) →
      img.pixelChecked x y .BLACK .BLACK = some (img.data x y) ∧
      ∃ img2 : HDRImage, img.setPixel x y .BLACK .BLACK v = some img2 ∧
        img2.width = img.width ∧ img2.height = img.height ∧
        img2.data x y = v ∧
        (∀ u w : Int, ¬ (u = x ∧ w = y) → img2.data u w = img.data u w)) := by
  constructor
  · intro hout
    have hx : wrapCoord x img.width .BLACK < 0 ∨
        wrapCoord y img.height .BLACK < 0 := by
      unfold wrapCoord
      by_cases h1 : 0 ≤ x ∧ x < img.width <;>
        by_cases h2 : 0 ≤ y ∧ y < img.height <;> simp [h1, h2] <;> tauto
    constructor
    · unfold HDRImage.pixelChecked
      rw [if_pos hx]
    · unfold HDRImage.setPixel
      rw [if_pos hx]
  · intro hin
    have hx : wrapCoord x img.width .BLACK = x := by
      unfold wrapCoord; simp [hin.1, hin.2.1]
    have hy : wrapCoord y img.height .BLACK = y := by
      unfold wrapCoord; simp [hin.2.2.1, hin.2.2.2]
    have hxn : ¬ (x < 0 ∨ y < 0) := by push_neg; exact ⟨hin.1, hin.2.2.1⟩
    constructor
    · unfold HDRImage.pixelChecked HDRImage.ref
      rw [hx, hy, if_neg hxn, if_pos hin]
    · refine ⟨⟨img.width, img.height,
        fun u w => if u = x ∧ w = y then v else img.data u w⟩, ?_, rfl, rfl,
        by simp, fun u w huw => by simp [huw]⟩
      unfold HDRImage.setPixel
      rw [hx, hy, if_neg hxn]

/-- A concrete 2×2 raster with distinct pixels. -/
def img2 : HDRImage :=
  ⟨2, 2, fun x y =>
    if x = 0 ∧ y = 0 then c4 1
    else if x = 1 ∧ y = 0 then c4 2
    else if x = 0 ∧ y = 1 then c4 3
    else c4 4⟩

/-- Witness for C3_black_mode at the in-range coordinate (1, 0) of a 2×2
raster (the out-of-range half is dischargeable at (5, -1) through the same
theorem, but one coordinate suffices for the audit). -/
theorem C3_black_mode_witness :
    (¬ (0 ≤ (1 : Int) ∧ (1 : Int) < img2.width ∧ 0 ≤ (0 : Int) ∧
        (0 : Int) < img2.height) →
      img2.pixelChecked 1 0 .BLACK .BLACK = some g_blackPixel ∧
      img2.setPixel 1 0 .BLACK .BLACK (c4 9) = none) ∧
    ((0 ≤ (1 : Int) ∧ (1 : Int) < img2.width ∧ 0 ≤ (0 : Int) ∧
        (0 : Int) < img2.height) →
      img2.pixelChecked 1 0 .BLACK .BLACK = some (img2.data 1 0) ∧
      ∃ img3 : HDRImage, img2.setPixel 1 0 .BLACK .BLACK (c4 9) = some img3 ∧
        img3.width = img2.width ∧ img3.height = img2.height ∧
        img3.data 1 0 = c4 9 ∧
        (∀ u w : Int, ¬ (u = 1 ∧ w = 0) → img3.data u w = img2.data u w)) :=
  C3_black_mode img2 1 0 (c4 9)

/-- Modelled from the spec: a reversible edit record of `CommandHistory`
(commandhistory.h is not among the source files), "wrapping enough state to
reconstruct the prior/next raster". -/
structure EditRecord where
  before : HDRImage
  after : HDRImage

/-- The edit/history controller `GLImage` of glimage.cpp, restricted to the
state its undo/redo paths touch: the current raster, the undo and redo
stacks of the `CommandHistory` (modelled from the spec), and the two dirty
flags (`m_histogramDirty` and the texture loader's dirty bit). The blocking
join on an outstanding async command that `GLImage::undo`/`redo` perform
first is a concurrency effect outside the embedding; the state here is the
post-join state. -/
structure GLImage where
  image : HDRImage
  undoStack : List EditRecord
  redoStack : List EditRecord
  histogramDirty : Bool
  textureDirty : Bool

namespace GLImage

/-- `GLImage::undo`: pop a history record if there is one, restore the prior
raster, and mark both caches dirty; report `false` on an empty stack. -/
def undo (gl : GLImage) : Bool × GLImage :=
  match gl.undoStack with
  | [] => (false, gl)
  | rec :: rest =>
      (true, ⟨rec.before, rest, rec :: gl.redoStack, true, true⟩)

/-- `GLImage::redo`: replay a history record if there is one and mark both
caches dirty; report `false` on an empty stack. -/
def redo (gl : GLImage) : Bool × GLImage :=
  match gl.redoStack with
  | [] => (false, gl)
  | rec :: rest =>
      (true, ⟨rec.after, rec :: gl.undoStack, rest, true, true⟩)

end GLImage

/-- C4 (confirmed): undo (resp. redo) on an empty undo (resp. redo) stack
returns false, raises no error and leaves the state untouched; a successful
undo or redo returns true and marks both the histogram cache and the GPU
texture cache dirty. (CommandHistory itself is not among the source files
and is modelled from the spec.) -/
theorem C4_undo_redo (gl : GLImage) :
    (gl.undoStack = [] → gl.undo = (false, gl)) ∧
    (gl.undoStack ≠ [] → (gl.undo.1 = true ∧
      gl.undo.2.histogramDirty = true ∧ gl.undo.2.textureDirty = true)) ∧
    (gl.redoStack = [] → gl.redo = (false, gl)) ∧
    (gl.redoStack ≠ [] → (gl.redo.1 = true ∧
      gl.redo.2.histogramDirty = true ∧ gl.redo.2.textureDirty = true)) := by
  refine ⟨?_, ?_, ?_, ?_⟩
  · intro h; simp [GLImage.undo, h]
  · intro h
    match hs : gl.undoStack with
    | [] => exact absurd hs h
    | rec :: rest => simp [GLImage.undo, hs]
  · intro h; simp [GLImage.redo, h]
  · intro h
    match hs : gl.redoStack with
    | [] => exact absurd hs h
    | rec :: rest => simp [GLImage.redo, hs]

/-- A concrete controller state with one record in each stack and clean
caches. -/
def glSample : GLImage :=
  ⟨img1, [⟨img2, img1⟩], [⟨img1, img2⟩], false, false⟩

/-- Witness for C4_undo_redo at a concrete controller state. -/
theorem C4_undo_redo_witness :
    (glSample.undoStack = [] → glSample.undo = (false, glSample)) ∧
    (glSample.undoStack ≠ [] → (glSample.undo.1 = true ∧
      glSample.undo.2.histogramDirty = true ∧
      glSample.undo.2.textureDirty = true)) ∧
    (glSample.redoStack = [] → glSample.redo = (false, glSample)) ∧
    (glSample.redoStack ≠ [] → (glSample.redo.1 = true ∧
      glSample.redo.2.histogramDirty = true ∧
      glSample.redo.2.textureDirty = true)) :=
  C4_undo_redo glSample

/-- A border-aware read at an in-range coordinate returns the stored pixel,
under every mode. -/
theorem pixel_inrange (img : HDRImage) (x y : Int) (mX mY : BorderMode)
    (hx0 : 0 ≤ x) (hx1 : x < img.width) (hy0 : 0 ≤ y) (hy1 : y < img.height) :
    img.pixel x y mX mY = img.data x y := by
  unfold HDRImage.pixel
  have hwx : wrapCoord x img.width mX = x := by
    unfold wrapCoord; rw [if_pos ⟨hx0, hx1⟩]
  have hwy : wrapCoord y img.height mY = y := by
    unfold wrapCoord; rw [if_pos ⟨hy0, hy1⟩]
  rw [hwx, hwy, if_neg (by omega)]

/-- Modelled from the spec: `lerp` from the missing header common.h, the
standard linear interpolation a + (b - a) * t used by the "4-tap bilinear
blend using fractional parts". -/
def lerpC (a b : Color4) (t : ℚ) : Color4 := a + (b - a).scale t

@[simp] theorem lerpC_zero (a b : Color4) : lerpC a b 0 = a := by
  unfold lerpC; ext <;> simp

namespace HDRImage

/-- `HDRImage::bilinear`: shift by -0.5 so pixels are defined at their
centers, then blend the four surrounding pixels by the fractional parts. -/
def bilinear (img : HDRImage) (sx sy : ℚ) (mX mY : BorderMode) : Color4 :=
  lerpC
    (lerpC (img.pixel ⌊sx - 1/2⌋ ⌊sy - 1/2⌋ mX mY)
           (img.pixel (⌊sx - 1/2⌋ + 1) ⌊sy - 1/2⌋ mX mY)
           ((sx - 1/2) - (⌊sx - 1/2⌋ : ℚ)))
    (lerpC (img.pixel ⌊sx - 1/2⌋ (⌊sy - 1/2⌋ + 1) mX mY)
           (img.pixel (⌊sx - 1/2⌋ + 1) (⌊sy - 1/2⌋ + 1) mX mY)
           ((sx - 1/2) - (⌊sx - 1/2⌋ : ℚ)))
    ((sy - 1/2) - (⌊sy - 1/2⌋ : ℚ))

end HDRImage

/-- One axis of the Photoshop-style bicubic kernel of `HDRImage::bicubic`:
the code's two weight branches as a function of the kernel parameter A and
the distance d. -/
def cubicWeight (A d : ℚ) : ℚ :=
  if d ≤ 1 then ((A + 2) * d - (A + 3)) * d * d + 1
  else ((A * d - 5 * A) * d + 8 * A) * d - 4 * A

theorem cubicWeight_zero (A : ℚ) : cubicWeight A 0 = 1 := by
  unfold cubicWeight; norm_num

theorem cubicWeight_one (A : ℚ) : cubicWeight A 1 = 0 := by
  unfold cubicWeight; norm_num

theorem cubicWeight_two (A : ℚ) : cubicWeight A 2 = 0 := by
  unfold cubicWeight; norm_num; ring

namespace HDRImage

/-- `HDRImage::bicubic` (kernel parameter A = -0.75): accumulate the 16
taps of the 4x4 neighbourhood of the -0.5-shifted coordinate, each weighted
by the product of the two per-axis piecewise-cubic weights of its distance,
and divide by the accumulated total weight. -/
def bicubic (img : HDRImage) (sx sy : ℚ) (mX mY : BorderMode) : Color4 :=
  let acc :=
    ([⌊sy - 1/2⌋ - 1, ⌊sy - 1/2⌋, ⌊sy - 1/2⌋ + 1,
      ⌊sy - 1/2⌋ + 2] : List Int).foldl
      (fun acc (y : Int) =>
        ([⌊sx - 1/2⌋ - 1, ⌊sx - 1/2⌋, ⌊sx - 1/2⌋ + 1,
          ⌊sx - 1/2⌋ + 2] : List Int).foldl
          (fun acc (x : Int) =>
            (acc.1 + (img.pixel x y mX mY).scale
              (cubicWeight (-3/4) |sx - 1/2 - (x : ℚ)| *
               cubicWeight (-3/4) |sy - 1/2 - (y : ℚ)|),
             acc.2 + cubicWeight (-3/4) |sx - 1/2 - (x : ℚ)| *
               cubicWeight (-3/4) |sy - 1/2 - (y : ℚ)|))
          acc)
      ((0 : Color4), (0 : ℚ))
  acc.1.scale (1 / acc.2)

end HDRImage

/-- C5 (confirmed): sampling with the bilinear or the bicubic sampler at an
exact pixel-center coordinate (i + 0.5, j + 0.5) of an in-range pixel
returns the source pixel exactly, for every pair of border modes (the
arithmetic is exact over ℚ, so "within floating-point tolerance" holds with
zero error). -/
theorem C5_sample_pixel_center (img : HDRImage) (i j : Int)
    (mX mY : BorderMode) (hx0 : 0 ≤ i) (hx1 : i < img.width)
    (hy0 : 0 ≤ j) (hy1 : j < img.height) :
    img.bilinear ((i : ℚ) + 1/2) ((j : ℚ) + 1/2) mX mY = img.data i j ∧
    img.bicubic ((i : ℚ) + 1/2) ((j : ℚ) + 1/2) mX mY = img.data i j := by
  have hsx : ((i : ℚ) + 1/2) - 1/2 = (i : ℚ) := by ring
  have hsy : ((j : ℚ) + 1/2) - 1/2 = (j : ℚ) := by ring
  have hfx : ⌊((i : ℚ) + 1/2) - 1/2⌋ = i := by
    rw [hsx]; exact Int.floor_intCast i
  have hfy : ⌊((j : ℚ) + 1/2) - 1/2⌋ = j := by
    rw [hsy]; exact Int.floor_intCast j
  have habs2 : |(-2 : ℚ)| = 2 := by norm_num
  have ex1 : (i : ℚ) + 1/2 - 1/2 - ((i - 1 : Int) : ℚ) = 1 := by
    push_cast; ring
  have ex2 : (i : ℚ) + 1/2 - 1/2 - ((i : Int) : ℚ) = 0 := by push_cast; ring
  have ex3 : (i : ℚ) + 1/2 - 1/2 - ((i + 1 : Int) : ℚ) = -1 := by
    push_cast; ring
  have ex4 : (i : ℚ) + 1/2 - 1/2 - ((i + 2 : Int) : ℚ) = -2 := by
    push_cast; ring
  have ey1 : (j : ℚ) + 1/2 - 1/2 - ((j - 1 : Int) : ℚ) = 1 := by
    push_cast; ring
  have ey2 : (j : ℚ) + 1/2 - 1/2 - ((j : Int) : ℚ) = 0 := by push_cast; ring
  have ey3 : (j : ℚ) + 1/2 - 1/2 - ((j + 1 : Int) : ℚ) = -1 := by
    push_cast; ring
  have ey4 : (j : ℚ) + 1/2 - 1/2 - ((j + 2 : Int) : ℚ) = -2 := by
    push_cast; ring
  constructor
  · unfold HDRImage.bilinear
    rw [hfx, hfy]
    rw [show (i : ℚ) + 1/2 - 1/2 - ((i : Int) : ℚ) = 0 from ex2,
        show (j : ℚ) + 1/2 - 1/2 - ((j : Int) : ℚ) = 0 from ey2]
    simp only [lerpC_zero]
    exact pixel_inrange img i j mX mY hx0 hx1 hy0 hy1
  · unfold HDRImage.bicubic
    rw [hfx, hfy]
    simp only [List.foldl_cons, List.foldl_nil]
    simp only [ex1, ex2, ex3, ex4, ey1, ey2, ey3, ey4,
      abs_one, abs_zero, abs_neg, habs2,
      cubicWeight_zero, cubicWeight_one, cubicWeight_two,
      mul_zero, zero_mul, mul_one, one_mul,
      Color4.scale_zero, Color4.scale_one, add_zero, zero_add]
    rw [show (1 : ℚ) / 1 = 1 by norm_num, Color4.scale_one]
    exact pixel_inrange img i j mX mY hx0 hx1 hy0 hy1

/-- Witness for C5_sample_pixel_center at pixel (1, 0) of a concrete 2×2
raster, with BLACK border modes (some of the 16 bicubic taps fall outside
the raster; their weights vanish). -/
theorem C5_sample_pixel_center_witness :
    img2.bilinear ((1 : ℚ) + 1/2) ((0 : ℚ) + 1/2) .BLACK .BLACK =
      img2.data 1 0 ∧
    img2.bicubic ((1 : ℚ) + 1/2) ((0 : ℚ) + 1/2) .BLACK .BLACK =
      img2.data 1 0 :=
  C5_sample_pixel_center img2 1 0 .BLACK .BLACK (by decide) (by decide)
    (by decide) (by decide)

/-- The direct border-aware window sum at output pixel (x, y) of the
horizontal box blur: the sum of the leftSize+rightSize+1 input samples
(x-leftSize .. x+rightSize, y). The seed loop of `HDRImage::boxBlurredX`
computes exactly this sum at x = 0. -/
def windowSumX (img : HDRImage) (l r : Int) (m : BorderMode) (x y : Int) :
    Color4 :=
  ∑ k ∈ Finset.range (l + r + 1).toNat, img.pixel (x - l + (k : Int)) y m m

/-- The per-row accumulator of `HDRImage::boxBlurredX`: seeded with the full
window at x = 0, then slid one pixel at a time by adding the entering sample
`pixel(x+rightSize)` and subtracting the leaving one `pixel(x-1-leftSize)`. -/
def boxAccX (img : HDRImage) (l r : Int) (m : BorderMode) (y : Int) :
    Nat → Color4
  | 0 => windowSumX img l r m 0 y
  | n + 1 => boxAccX img l r m y n
      - img.pixel ((n : Int) + 1 - 1 - l) y m m
      + img.pixel ((n : Int) + 1 + r) y m m

namespace HDRImage

/-- `HDRImage::boxBlurredX(leftSize, rightSize, mX)`: the sliding-window
row accumulator, normalized at the end by `1/(leftSize+rightSize+1)`. -/
def boxBlurredX (img : HDRImage) (l r : Int) (m : BorderMode) : HDRImage :=
  ⟨img.width, img.height, fun x y =>
    if 0 ≤ x ∧ x < img.width ∧ 0 ≤ y ∧ y < img.height then
      (boxAccX img l r m y x.toNat).scale (1 / ((l : ℚ) + (r : ℚ) + 1))
    else 0⟩

end HDRImage

/-- Shifting a sum over a fixed range by one: the incremental identity
behind the sliding window. -/
theorem sum_range_shift (f : ℕ → Color4) (K : ℕ) :
    ∑ k ∈ Finset.range K, f (k + 1) =
      ∑ k ∈ Finset.range K, f k + f K - f 0 := by
  have h := (Finset.sum_range_succ' f K).symm.trans (Finset.sum_range_succ f K)
  exact eq_sub_of_add_eq h

/-- The sliding-window accumulator of the horizontal box blur equals the
direct window sum at every column. -/
theorem boxAccX_eq (img : HDRImage) (l r : Int) (m : BorderMode) (y : Int)
    (hl : 0 ≤ l) (hr : 0 ≤ r) (n : Nat) :
    boxAccX img l r m y n = windowSumX img l r m (n : Int) y := by
  induction n with
  | zero => rw [boxAccX]; norm_num
  | succ n ih =>
      rw [boxAccX, ih]
      have hK : (((l + r + 1).toNat : ℕ) : Int) = l + r + 1 := by omega
      unfold windowSumX
      have hcongr :
          ∑ k ∈ Finset.range (l + r + 1).toNat,
              img.pixel (((n + 1 : ℕ) : Int) - l + (k : Int)) y m m =
          ∑ k ∈ Finset.range (l + r + 1).toNat,
              img.pixel ((n : Int) - l + ((k + 1 : ℕ) : Int)) y m m := by
        refine Finset.sum_congr rfl fun k _ => ?_
        congr 1
        push_cast
        ring
      rw [hcongr,
        sum_range_shift (fun k => img.pixel ((n : Int) - l + (k : Int)) y m m)
          (l + r + 1).toNat]
      have e1 : (n : Int) - l + (((l + r + 1).toNat : ℕ) : Int) =
          (n : Int) + 1 + r := by omega
      have e2 : (n : Int) - l + ((0 : ℕ) : Int) = (n : Int) + 1 - 1 - l := by
        omega
      rw [e1, e2]
      abel

/-- The concrete 5×1 raster [1, 2, 3, 4, 5] of the claim, every channel of
a column holding the same value. -/
def img5 : HDRImage :=
  ⟨5, 1, fun x _ =>
    if x = 0 then c4 1
    else if x = 1 then c4 2
    else if x = 2 then c4 3
    else if x = 3 then c4 4
    else c4 5⟩

/-- C6 (confirmed): the incrementally computed horizontal box blur equals,
at every output pixel, the direct border-aware window sum divided by
leftSize+rightSize+1; and concretely boxBlurredX(1,1,EDGE) on the 5×1
raster [1,2,3,4,5] yields (2+3+4)/3 = 3 at the center and (1+1+2)/3 = 4/3
at the left edge. -/
theorem C6_boxBlurredX (img : HDRImage) (l r x y : Int) (m : BorderMode)
    (hl : 0 ≤ l) (hr : 0 ≤ r) (hx0 : 0 ≤ x) (hx1 : x < img.width)
    (hy0 : 0 ≤ y) (hy1 : y < img.height) :
    ((img.boxBlurredX l r m).data x y =
      (windowSumX img l r m x y).scale (1 / ((l : ℚ) + (r : ℚ) + 1))) ∧
    (img5.boxBlurredX 1 1 .EDGE).data 2 0 = c4 3 ∧
    (img5.boxBlurredX 1 1 .EDGE).data 0 0 = c4 (4/3) := by
  refine ⟨?_, ?_, ?_⟩
  · unfold HDRImage.boxBlurredX
    dsimp only
    rw [if_pos ⟨hx0, hx1, hy0, hy1⟩,
      boxAccX_eq img l r m y hl hr x.toNat]
    congr 2
    omega
  · unfold HDRImage.boxBlurredX
    dsimp only
    rw [if_pos (by refine ⟨by norm_num, by norm_num [img5], by norm_num,
      by norm_num [img5]⟩)]
    show (boxAccX img5 1 1 .EDGE 0 (2 : Int).toNat).scale _ = _
    simp only [boxAccX, windowSumX]
    norm_num [Finset.sum_range_succ, Finset.sum_range_zero,
      show Int.toNat 3 = 3 from rfl, HDRImage.pixel, wrapCoord, clampI,
      modI, img5, c4]
  · unfold HDRImage.boxBlurredX
    dsimp only
    rw [if_pos (by refine ⟨by norm_num, by norm_num [img5], by norm_num,
      by norm_num [img5]⟩)]
    show (boxAccX img5 1 1 .EDGE 0 (0 : Int).toNat).scale _ = _
    simp only [boxAccX, windowSumX]
    norm_num [Finset.sum_range_succ, Finset.sum_range_zero,
      show Int.toNat 3 = 3 from rfl, HDRImage.pixel, wrapCoord, clampI,
      modI, img5, c4]

/-- Witness for C6_boxBlurredX: the window-sum identity at pixel (2, 0) of
the concrete raster under EDGE mode. -/
theorem C6_boxBlurredX_witness :
    ((img5.boxBlurredX 1 1 .EDGE).data 2 0 =
      (windowSumX img5 1 1 .EDGE 2 0).scale (1 / ((1 : ℚ) + (1 : ℚ) + 1))) ∧
    (img5.boxBlurredX 1 1 .EDGE).data 2 0 = c4 3 ∧
    (img5.boxBlurredX 1 1 .EDGE).data 0 0 = c4 (4/3) :=
  C6_boxBlurredX img5 1 1 2 0 .EDGE (by decide) (by decide) (by decide)
    (by decide) (by decide) (by decide)

/-- The inclusive integer range [lo, hi] in the order a C++
`for (i = lo; i <= hi; ++i)` loop visits it. -/
def intRange (lo hi : Int) : List Int :=
  (List.range (hi - lo + 1).toNat).map (fun k => lo + (k : Int))

/-- The neighbourhood gather loop of `HDRImage::medianFiltered` at pixel
(x, y): the chosen channel's border-aware values over the square window of
half-extent ⌈radius⌉ (outer loop i over the x offset, inner loop j over the
y offset), skipping offsets with i²+j² > radius² when `round` is set. -/
def gatherWindow (img : HDRImage) (radius : ℚ) (channel : Fin 4)
    (mX mY : BorderMode) (round : Bool) (x y : Int) : List ℚ :=
  (intRange (-⌈radius⌉) ⌈radius⌉).bind (fun i =>
    (intRange (-⌈radius⌉) ⌈radius⌉).filterMap (fun j =>
      if round = true ∧ ((i * i + j * j : Int) : ℚ) > radius * radius then
        none
      else some ((img.pixel (x + i) (y + j) mX mY).getCh channel)))

namespace HDRImage

/-- `HDRImage::medianFiltered(radius, channel, mX, mY, round)`: at every
pixel, gather the neighbourhood values of the chosen channel and write the
order statistic at index (num-1)/2 (the `nth_element` contract: the value
that position holds after sorting) into that channel, copying everything
else from the input. -/
def medianFiltered (img : HDRImage) (radius : ℚ) (channel : Fin 4)
    (mX mY : BorderMode) (round : Bool) : HDRImage :=
  ⟨img.width, img.height, fun x y =>
    if 0 ≤ x ∧ x < img.width ∧ 0 ≤ y ∧ y < img.height then
      Color4.setCh (img.data x y) channel
        ((List.insertionSort (· ≤ ·)
            (gatherWindow img radius channel mX mY round x y)).getD
          (((gatherWindow img radius channel mX mY round x y).length - 1) / 2)
          0)
    else img.data x y⟩

end HDRImage

/-- A 3×3 raster that is constant 1 except for an outlier 100 at the
center. -/
def imgM : HDRImage :=
  ⟨3, 3, fun x y => if x = 1 ∧ y = 1 then c4 100 else c4 1⟩

/-- C7 (confirmed): at every in-range pixel, medianFiltered writes into the
selected channel the order statistic of rank ⌊(N−1)/2⌋ of the N gathered
neighbourhood values (there is a sorted permutation of the gathered list
whose ⌊(N−1)/2⌋-th entry is the written value) and leaves the rest of the
pixel unchanged; concretely, with radius 1 and round = false on the 3×3
constant-except-center raster, the center output of the filtered channel is
the surrounding constant 1. -/
theorem C7_medianFiltered (img : HDRImage) (radius : ℚ) (channel : Fin 4)
    (mX mY : BorderMode) (round : Bool) (x y : Int)
    (hx0 : 0 ≤ x) (hx1 : x < img.width) (hy0 : 0 ≤ y)
    (hy1 : y < img.height) :
    (∃ s : List ℚ, s.Perm (gatherWindow img radius channel mX mY round x y) ∧
      s.Sorted (· ≤ ·) ∧
      (img.medianFiltered radius channel mX mY round).data x y =
        Color4.setCh (img.data x y) channel
          (s.getD
            (((gatherWindow img radius channel mX mY round x y).length - 1)
              / 2) 0)) ∧
    ((imgM.medianFiltered 1 0 .EDGE .EDGE false).data 1 1).getCh 0 = 1 := by
  constructor
  · refine ⟨List.insertionSort (· ≤ ·)
      (gatherWindow img radius channel mX mY round x y),
      List.perm_insertionSort (· ≤ ·) _, List.sorted_insertionSort (· ≤ ·) _,
      ?_⟩
    unfold HDRImage.medianFiltered
    dsimp only
    rw [if_pos ⟨hx0, hx1, hy0, hy1⟩]
  · decide

/-- Witness for C7_medianFiltered: the order-statistic characterization at
the center pixel of the concrete 3×3 raster. -/
theorem C7_medianFiltered_witness :
    (∃ s : List ℚ, s.Perm (gatherWindow imgM 1 0 .EDGE .EDGE false 1 1) ∧
      s.Sorted (· ≤ ·) ∧
      (imgM.medianFiltered 1 0 .EDGE .EDGE false).data 1 1 =
        Color4.setCh (imgM.data 1 1) 0
          (s.getD
            (((gatherWindow imgM 1 0 .EDGE .EDGE false 1 1).length - 1)
              / 2) 0)) ∧
    ((imgM.medianFiltered 1 0 .EDGE .EDGE false).data 1 1).getCh 0 = 1 :=
  C7_medianFiltered imgM 1 0 .EDGE .EDGE false 1 1 (by decide) (by decide)
    (by decide) (by decide)

/-- Writing one channel leaves every other channel unchanged. -/
theorem getCh_setCh_ne (p : Color4) (ch c : Fin 4) (v : ℚ) (h : c ≠ ch) :
    (Color4.setCh p ch v).getCh c = p.getCh c := by
  fin_cases ch <;> fin_cases c <;>
    simp_all [Color4.setCh, Color4.getCh]

/-- C10 (confirmed): medianFiltered preserves the raster dimensions and, at
every pixel, every channel other than the selected one is identical to the
input raster's channel value. -/
theorem C10_medianFiltered_frame (img : HDRImage) (radius : ℚ)
    (channel : Fin 4) (mX mY : BorderMode) (round : Bool) :
    (img.medianFiltered radius channel mX mY round).width = img.width ∧
    (img.medianFiltered radius channel mX mY round).height = img.height ∧
    ∀ (x y : Int) (c : Fin 4), c ≠ channel →
      ((img.medianFiltered radius channel mX mY round).data x y).getCh c =
        (img.data x y).getCh c := by
  refine ⟨rfl, rfl, fun x y c hc => ?_⟩
  unfold HDRImage.medianFiltered
  dsimp only
  by_cases h : 0 ≤ x ∧ x < img.width ∧ 0 ≤ y ∧ y < img.height
  · rw [if_pos h, getCh_setCh_ne _ _ _ _ hc]
  · rw [if_neg h]

/-- Witness for C10_medianFiltered_frame: the untouched blue channel of a
pixel of the concrete 3×3 raster. -/
theorem C10_medianFiltered_frame_witness :
    ((imgM.medianFiltered 1 0 .EDGE .EDGE false).data 0 2).getCh 2 =
      (imgM.data 0 2).getCh 2 :=
  (C10_medianFiltered_frame imgM 1 0 .EDGE .EDGE false).2.2 0 2 2 (by decide)

/-- The 3×3 window sum of a homogeneity map around (x, y), as the combine
loop of `HDRImage::demosaicAHD` accumulates it (outer loop over j, inner
over i). -/
def homoSum (homo : Int → Int → ℕ) (x y : Int) : ℕ :=
  ((intRange (y - 1) (y + 1)).map (fun j =>
    ((intRange (x - 1) (x + 1)).map (fun i => homo i j)).sum)).sum

/-- The final combine ("arbitration") loop of `HDRImage::demosaicAHD`
(the parallel_for over y in [1, height-1), x in [1, width-1)): sum each
candidate's homogeneity over the 3×3 window, take the horizontal candidate
on a strictly larger sum, the vertical one on a strictly smaller sum, and
the 0.5-blend on a tie; every other pixel of the destination is left as it
was. -/
def ahdCombine (img rgbH rgbV : HDRImage) (homoH homoV : Int → Int → ℕ) :
    HDRImage :=
  ⟨img.width, img.height, fun x y =>
    if 1 ≤ x ∧ x ≤ img.width - 2 ∧ 1 ≤ y ∧ y ≤ img.height - 2 then
      if homoSum homoH x y > homoSum homoV x y then rgbH.data x y
      else if homoSum homoV x y > homoSum homoH x y then rgbV.data x y
      else (rgbH.data x y + rgbV.data x y).scale (1/2)
    else img.data x y⟩

/-- The canonical Bayer color of a coordinate (`bayerColor` of
hdrimage.cpp): bayer[y%2][x%2] with bayer = {{0,1},{1,2}}. -/
def bayerColor (x y : Int) : Fin 3 :=
  if y % 2 = 0 then (if x % 2 = 0 then 0 else 1)
  else (if x % 2 = 0 then 1 else 2)

/-- The same-Bayer-color values `demosaicBorder` gathers in the 3×3
neighbourhood of (x, y), skipping out-of-range neighbours (the C++ code
skips them through the unsigned wrap-around of `ys`/`xs` combined with the
`< width`/`< height` tests, which is this bounds test). `demosaicBorder`
never writes the Bayer-native channel of any pixel, so these reads are
unaffected by the in-place update order. -/
def neighborVals (img : HDRImage) (x y : Int) (c : Fin 3) : List ℚ :=
  (intRange (y - 1) (y + 1)).bind (fun ys =>
    (intRange (x - 1) (x + 1)).filterMap (fun xs =>
      if 0 ≤ xs ∧ xs < img.width ∧ 0 ≤ ys ∧ ys < img.height ∧
          bayerColor xs ys = c then
        some ((img.data xs ys).getCh c.castSucc)
      else none))

/-- The per-pixel update of `HDRImage::demosaicBorder`: each channel other
than the pixel's own Bayer color becomes the average of the same-color
values present in the valid 3×3 neighbourhood, or 1.0 when none exists;
the native channel and alpha are untouched. -/
def borderFill (img : HDRImage) (x y : Int) : Color4 :=
  ⟨if (0 : Fin 3) = bayerColor x y then (img.data x y).r
   else if (neighborVals img x y 0).length = 0 then 1
   else (neighborVals img x y 0).sum / ((neighborVals img x y 0).length : ℚ),
   if (1 : Fin 3) = bayerColor x y then (img.data x y).g
   else if (neighborVals img x y 1).length = 0 then 1
   else (neighborVals img x y 1).sum / ((neighborVals img x y 1).length : ℚ),
   if (2 : Fin 3) = bayerColor x y then (img.data x y).b
   else if (neighborVals img x y 2).length = 0 then 1
   else (neighborVals img x y 2).sum / ((neighborVals img x y 2).length : ℚ),
   (img.data x y).a⟩

namespace HDRImage

/-- `HDRImage::demosaicBorder(border)`: apply `borderFill` to exactly the
pixels of the outermost `border` rows/columns (the row loop's skip-jump —
`if (x == border and border ≤ y < height-border) x = width-border` —
processes, for rows in the central band, only x < border and
x ≥ width-border, and every x of the other rows; this is faithful for
width ≥ 2·border, the shape demosaicAHD feeds it). -/
def demosaicBorder (img : HDRImage) (border : Int) : HDRImage :=
  ⟨img.width, img.height, fun x y =>
    if 0 ≤ x ∧ x < img.width ∧ 0 ≤ y ∧ y < img.height ∧
        (x < border ∨ img.width - border ≤ x ∨ y < border ∨
          img.height - border ≤ y) then
      borderFill img x y
    else img.data x y⟩

end HDRImage

/-- A 7×7 all-zero raster and two constant candidate rasters for the C8
counterexample. -/
def imgA : HDRImage := ⟨7, 7, fun _ _ => c4 0⟩

/-- The horizontal candidate raster of the C8 counterexample. -/
def rgbHA : HDRImage := ⟨7, 7, fun _ _ => c4 5⟩

/-- The vertical candidate raster of the C8 counterexample. -/
def rgbVA : HDRImage := ⟨7, 7, fun _ _ => c4 0⟩

/-- C8 as stated is false on the code: pixel (1, 1) of a 7×7 raster lies in
the outermost 3 rows/columns, yet the arbitration loop (which skips only the
outermost single row/column) writes it — here the horizontal candidate wins
and the pixel changes from 0 to 5. -/
theorem C8_counterexample :
    imgA.width = 7 ∧ imgA.height = 7 ∧ (1 : Int) < 3 ∧
    (ahdCombine imgA rgbHA rgbVA (fun _ _ => 1) (fun _ _ => 0)).data 1 1 =
      c4 5 ∧
    imgA.data 1 1 = c4 0 ∧
    (ahdCombine imgA rgbHA rgbVA (fun _ _ => 1) (fun _ _ => 0)).data 1 1 ≠
      imgA.data 1 1 := by
  decide

/-- C8 (amended): the AHD arbitration loop writes exactly the pixels with
1 ≤ x ≤ width-2 and 1 ≤ y ≤ height-2 — skipping only the outermost single
row/column, not the outermost three — choosing the horizontal candidate
when its 3×3-summed homogeneity score is strictly greater, the vertical
candidate when strictly smaller, and exactly the 0.5-blend of the two on a
tie; demosaicBorder(3), run afterwards, leaves the strict interior
untouched and rewrites every frame pixel's non-native channels to the
neighbourhood averages while preserving the Bayer-native channel and
alpha. -/
theorem C8_ahd_amended :
    (∀ (img rgbH rgbV : HDRImage) (homoH homoV : Int → Int → ℕ) (x y : Int),
      (¬ (1 ≤ x ∧ x ≤ img.width - 2 ∧ 1 ≤ y ∧ y ≤ img.height - 2) →
        (ahdCombine img rgbH rgbV homoH homoV).data x y = img.data x y) ∧
      (1 ≤ x ∧ x ≤ img.width - 2 ∧ 1 ≤ y ∧ y ≤ img.height - 2 →
        (ahdCombine img rgbH rgbV homoH homoV).data x y =
          (if homoSum homoH x y > homoSum homoV x y then rgbH.data x y
           else if homoSum homoV x y > homoSum homoH x y then rgbV.data x y
           else (rgbH.data x y + rgbV.data x y).scale (1/2)))) ∧
    (∀ (img : HDRImage) (x y : Int),
      (3 ≤ x ∧ x < img.width - 3 ∧ 3 ≤ y ∧ y < img.height - 3 →
        (img.demosaicBorder 3).data x y = img.data x y) ∧
      (0 ≤ x ∧ x < img.width ∧ 0 ≤ y ∧ y < img.height ∧
          (x < 3 ∨ img.width - 3 ≤ x ∨ y < 3 ∨ img.height - 3 ≤ y) →
        (img.demosaicBorder 3).data x y = borderFill img x y ∧
        (∀ c : Fin 3, c = bayerColor x y →
          ((img.demosaicBorder 3).data x y).getCh c.castSucc =
            (img.data x y).getCh c.castSucc) ∧
        ((img.demosaicBorder 3).data x y).a = (img.data x y).a)) := by
  constructor
  · intro img rgbH rgbV homoH homoV x y
    constructor
    · intro h
      unfold ahdCombine
      dsimp only
      rw [if_neg h]
    · intro h
      unfold ahdCombine
      dsimp only
      rw [if_pos h]
  · intro img x y
    constructor
    · intro h
      unfold HDRImage.demosaicBorder
      dsimp only
      rw [if_neg (by omega)]
    · intro h
      have hfill : (img.demosaicBorder 3).data x y = borderFill img x y := by
        unfold HDRImage.demosaicBorder
        dsimp only
        rw [if_pos h]
      refine ⟨hfill, ?_, ?_⟩
      · intro c hc
        rw [hfill]
        fin_cases c <;>
          simp [borderFill, ← hc, Color4.getCh, Fin.castSucc_zero,
            Fin.castSucc_one, show ((2 : Fin 3)).castSucc = (2 : Fin 4)
              from rfl]
      · rw [hfill]
        rfl

/-- Witness for C8_ahd_amended: the arbitration loop leaves the corner
(0, 0) of the concrete 7×7 raster unchanged, and demosaicBorder(3) applies
the border fill at the frame pixel (1, 1). -/
theorem C8_ahd_amended_witness :
    (ahdCombine imgA rgbHA rgbVA (fun _ _ => 1) (fun _ _ => 0)).data 0 0 =
      imgA.data 0 0 ∧
    (imgA.demosaicBorder 3).data 1 1 = borderFill imgA 1 1 :=
  ⟨(C8_ahd_amended.1 imgA rgbHA rgbVA (fun _ _ => 1) (fun _ _ => 0) 0 0).1
      (by decide),
    ((C8_ahd_amended.2 imgA 1 1).2 (by decide)).1⟩

/-- The nine canvas anchors (enum CanvasAnchor of HDRImage). -/
inductive CanvasAnchor where
  | TOP_LEFT
  | TOP_CENTER
  | TOP_RIGHT
  | MIDDLE_LEFT
  | MIDDLE_CENTER
  | MIDDLE_RIGHT
  | BOTTOM_LEFT
  | BOTTOM_CENTER
  | BOTTOM_RIGHT
deriving DecidableEq, Repr

/-- The horizontal top-left placement offset of `resizedCanvas` (the first
switch): newW-oldW for RIGHT anchors, the C++ truncating (toward-zero)
division (newW-oldW)/2 for CENTER anchors, 0 for LEFT anchors. -/
def anchorOffX (anchor : CanvasAnchor) (newW oldW : Int) : Int :=
  match anchor with
  | .TOP_RIGHT | .MIDDLE_RIGHT | .BOTTOM_RIGHT => newW - oldW
  | .TOP_CENTER | .MIDDLE_CENTER | .BOTTOM_CENTER => Int.tdiv (newW - oldW) 2
  | .TOP_LEFT | .MIDDLE_LEFT | .BOTTOM_LEFT => 0

/-- The vertical top-left placement offset of `resizedCanvas` (the second
switch): newH-oldH for BOTTOM anchors, truncating (newH-oldH)/2 for MIDDLE
anchors, 0 for TOP anchors. -/
def anchorOffY (anchor : CanvasAnchor) (newH oldH : Int) : Int :=
  match anchor with
  | .BOTTOM_LEFT | .BOTTOM_CENTER | .BOTTOM_RIGHT => newH - oldH
  | .MIDDLE_LEFT | .MIDDLE_CENTER | .MIDDLE_RIGHT => Int.tdiv (newH - oldH) 2
  | .TOP_LEFT | .TOP_CENTER | .TOP_RIGHT => 0

namespace HDRImage

/-- `HDRImage::resizedCanvas(newW, newH, anchor, bgColor)`: a newW×newH
raster filled with bgColor, the placement offset clipped (a negative
destination corner is zeroed and turned into a source offset), and the
overlapping min(oldW,newW) × min(oldH,newH) block copied (the Eigen block
assignment). -/
def resizedCanvas (img : HDRImage) (newW newH : Int) (anchor : CanvasAnchor)
    (bgColor : Color4) : HDRImage :=
  let tlDstX0 := anchorOffX anchor newW img.width
  let tlDstY0 := anchorOffY anchor newH img.height
  let tlSrcX := if tlDstX0 < 0 then -tlDstX0 else 0
  let tlDstX := if tlDstX0 < 0 then 0 else tlDstX0
  let tlSrcY := if tlDstY0 < 0 then -tlDstY0 else 0
  let tlDstY := if tlDstY0 < 0 then 0 else tlDstY0
  ⟨newW, newH, fun x y =>
    if tlDstX ≤ x ∧ x < tlDstX + min img.width newW ∧
        tlDstY ≤ y ∧ y < tlDstY + min img.height newH then
      img.data (x - tlDstX + tlSrcX) (y - tlDstY + tlSrcY)
    else bgColor⟩

end HDRImage

/-- Claim C9's version of the CENTER/MIDDLE placement offset: the floor
⌊(newW-oldW)/2⌋ (Lean's `/` on Int, floor division for the positive
divisor 2), instead of the code's truncating division. -/
def anchorOffXClaim (anchor : CanvasAnchor) (newW oldW : Int) : Int :=
  match anchor with
  | .TOP_RIGHT | .MIDDLE_RIGHT | .BOTTOM_RIGHT => newW - oldW
  | .TOP_CENTER | .MIDDLE_CENTER | .BOTTOM_CENTER => (newW - oldW) / 2
  | .TOP_LEFT | .MIDDLE_LEFT | .BOTTOM_LEFT => 0

/-- Claim C9's vertical offset with floor division for MIDDLE anchors. -/
def anchorOffYClaim (anchor : CanvasAnchor) (newH oldH : Int) : Int :=
  match anchor with
  | .BOTTOM_LEFT | .BOTTOM_CENTER | .BOTTOM_RIGHT => newH - oldH
  | .MIDDLE_LEFT | .MIDDLE_CENTER | .MIDDLE_RIGHT => (newH - oldH) / 2
  | .TOP_LEFT | .TOP_CENTER | .TOP_RIGHT => 0

/-- The canvas resize exactly as claim C9 words it, differing from the code
only in using the floor offsets. -/
def resizedCanvasClaim (img : HDRImage) (newW newH : Int)
    (anchor : CanvasAnchor) (bgColor : Color4) : HDRImage :=
  let tlDstX0 := anchorOffXClaim anchor newW img.width
  let tlDstY0 := anchorOffYClaim anchor newH img.height
  let tlSrcX := if tlDstX0 < 0 then -tlDstX0 else 0
  let tlDstX := if tlDstX0 < 0 then 0 else tlDstX0
  let tlSrcY := if tlDstY0 < 0 then -tlDstY0 else 0
  let tlDstY := if tlDstY0 < 0 then 0 else tlDstY0
  ⟨newW, newH, fun x y =>
    if tlDstX ≤ x ∧ x < tlDstX + min img.width newW ∧
        tlDstY ≤ y ∧ y < tlDstY + min img.height newH then
      img.data (x - tlDstX + tlSrcX) (y - tlDstY + tlSrcY)
    else bgColor⟩

/-- A concrete 6×1 raster [10, 20, 30, 40, 50, 60]. -/
def img6 : HDRImage :=
  ⟨6, 1, fun x _ =>
    if x = 0 then c4 10
    else if x = 1 then c4 20
    else if x = 2 then c4 30
    else if x = 3 then c4 40
    else if x = 4 then c4 50
    else c4 60⟩

/-- C9 as stated is false on the code: shrinking a 6×1 raster to 3×1 with a
CENTER anchor, the code's toward-zero offset (3-6)/2 = -1 copies source
columns 1..3 (first output pixel 20), while the claim's floor offset
⌊(3-6)/2⌋ = -2 would copy columns 2..4 (first output pixel 30). -/
theorem C9_counterexample :
    (img6.resizedCanvas 3 1 .MIDDLE_CENTER (c4 0)).data 0 0 = c4 20 ∧
    (resizedCanvasClaim img6 3 1 .MIDDLE_CENTER (c4 0)).data 0 0 = c4 30 ∧
    (img6.resizedCanvas 3 1 .MIDDLE_CENTER (c4 0)).data 0 0 ≠
      (resizedCanvasClaim img6 3 1 .MIDDLE_CENTER (c4 0)).data 0 0 := by
  decide

/-- C9 (amended): resizedCanvas returns a newW×newH raster equal to bgColor
outside the copied block; the placement offset is newW−oldW (resp.
newH−oldH) for RIGHT (resp. BOTTOM) anchors, the toward-zero division
(newW−oldW)/2 (resp. (newH−oldH)/2) — which equals the floor only when the
canvas does not shrink — for CENTER (resp. MIDDLE) anchors, and 0 for LEFT
(resp. TOP) anchors; a negative offset is clipped symmetrically into a
source offset, so the output carries img(x-offX, y-offY) exactly on the
block [max 0 offX, max 0 offX + min(oldW,newW)) × [max 0 offY,
max 0 offY + min(oldH,newH)). -/
theorem C9_resizedCanvas_amended (img : HDRImage) (newW newH : Int)
    (anchor : CanvasAnchor) (bg : Color4) :
    (img.resizedCanvas newW newH anchor bg).width = newW ∧
    (img.resizedCanvas newW newH anchor bg).height = newH ∧
    anchorOffX .MIDDLE_CENTER newW img.width =
      Int.tdiv (newW - img.width) 2 ∧
    anchorOffX .TOP_RIGHT newW img.width = newW - img.width ∧
    anchorOffX .TOP_LEFT newW img.width = 0 ∧
    anchorOffY .MIDDLE_CENTER newH img.height =
      Int.tdiv (newH - img.height) 2 ∧
    anchorOffY .BOTTOM_LEFT newH img.height = newH - img.height ∧
    anchorOffY .TOP_LEFT newH img.height = 0 ∧
    ∀ x y : Int,
      (img.resizedCanvas newW newH anchor bg).data x y =
        if max 0 (anchorOffX anchor newW img.width) ≤ x ∧
            x < max 0 (anchorOffX anchor newW img.width) +
              min img.width newW ∧
            max 0 (anchorOffY anchor newH img.height) ≤ y ∧
            y < max 0 (anchorOffY anchor newH img.height) +
              min img.height newH then
          img.data (x - anchorOffX anchor newW img.width)
            (y - anchorOffY anchor newH img.height)
        else bg := by
  refine ⟨rfl, rfl, rfl, rfl, rfl, rfl, rfl, rfl, fun x y => ?_⟩
  unfold HDRImage.resizedCanvas
  dsimp only
  have hdx : (if anchorOffX anchor newW img.width < 0 then (0 : Int)
      else anchorOffX anchor newW img.width) =
      max 0 (anchorOffX anchor newW img.width) := by omega
  have hdy : (if anchorOffY anchor newH img.height < 0 then (0 : Int)
      else anchorOffY anchor newH img.height) =
      max 0 (anchorOffY anchor newH img.height) := by omega
  have hsx : x - (if anchorOffX anchor newW img.width < 0 then (0 : Int)
        else anchorOffX anchor newW img.width) +
      (if anchorOffX anchor newW img.width < 0 then
        -anchorOffX anchor newW img.width else 0) =
      x - anchorOffX anchor newW img.width := by omega
  have hsy : y - (if anchorOffY anchor newH img.height < 0 then (0 : Int)
        else anchorOffY anchor newH img.height) +
      (if anchorOffY anchor newH img.height < 0 then
        -anchorOffY anchor newH img.height else 0) =
      y - anchorOffY anchor newH img.height := by omega
  rw [hsx, hsy, hdx, hdy]
